import Mathlib

set_option maxRecDepth 40000
set_option maxHeartbeats 1000000

/-!
Verification of the naibu3/TestExtractor repository (src/test_extractor.py,
src/checker.py, src/collector.py) against its natural-language specification.

The Python sources are shallowly embedded below.  Strings are modelled as
`List Char` (wrapped into `String` at the interfaces); Python stdlib
helpers used by the sources (`html.unescape`, `unicodedata` NFD +
combining-mark stripping, `str.lower`, `str.strip`, `re` patterns,
`difflib.SequenceMatcher`) are embedded over the character repertoire the
repository actually processes (ASCII plus the Spanish Latin-1 letters and
typographic quotes); characters outside the modelled tables are left
untouched, mirroring that the identity is the correct behaviour for them.
-/

/-! ## Python string primitives -/

/-- Whitespace as recognised by Python `str.strip()` and by `\s` in the
`re` patterns of the sources (common subset; the exotic Unicode spaces are
never produced by the modelled pipeline). -/
def pyIsWs (c : Char) : Bool :=
  c == ' ' || c == '\t' || c == '\n' || c == '\r' || c == '\x0b' || c == '\x0c' || c == '\xa0'

/-- The apostrophe character. -/
def aposC : Char := '\x27'

/-- Python `str.lower()` on the repertoire used by the repository
(ASCII letters plus the precomposed Spanish letters). -/
def pyLower (c : Char) : Char :=
  if 65 ≤ c.toNat ∧ c.toNat ≤ 90 then Char.ofNat (c.toNat + 32)
  else match c with
  | 'Á' => 'á' | 'É' => 'é' | 'Í' => 'í' | 'Ó' => 'ó' | 'Ú' => 'ú'
  | 'À' => 'à' | 'È' => 'è' | 'Ì' => 'ì' | 'Ò' => 'ò' | 'Ù' => 'ù'
  | 'Ä' => 'ä' | 'Ë' => 'ë' | 'Ï' => 'ï' | 'Ö' => 'ö' | 'Ü' => 'ü'
  | 'Ñ' => 'ñ' | 'Ç' => 'ç'
  | _ => c

/-- Python `str.upper()` on the same repertoire. -/
def pyUpper (c : Char) : Char :=
  if 97 ≤ c.toNat ∧ c.toNat ≤ 122 then Char.ofNat (c.toNat - 32)
  else match c with
  | 'á' => 'Á' | 'é' => 'É' | 'í' => 'Í' | 'ó' => 'Ó' | 'ú' => 'Ú'
  | 'ñ' => 'Ñ' | 'ü' => 'Ü' | 'ç' => 'Ç'
  | _ => c

/-- Unicode NFD decomposition (`unicodedata.normalize(NFD, ...)`) on the
precomposed Latin letters the repository can encounter; all other
characters are NFD-stable. -/
def nfdChar (c : Char) : List Char :=
  match c with
  | 'á' => ['a', '́'] | 'é' => ['e', '́'] | 'í' => ['i', '́']
  | 'ó' => ['o', '́'] | 'ú' => ['u', '́']
  | 'Á' => ['A', '́'] | 'É' => ['E', '́'] | 'Í' => ['I', '́']
  | 'Ó' => ['O', '́'] | 'Ú' => ['U', '́']
  | 'à' => ['a', '̀'] | 'è' => ['e', '̀'] | 'ì' => ['i', '̀']
  | 'ò' => ['o', '̀'] | 'ù' => ['u', '̀']
  | 'À' => ['A', '̀'] | 'È' => ['E', '̀'] | 'Ì' => ['I', '̀']
  | 'Ò' => ['O', '̀'] | 'Ù' => ['U', '̀']
  | 'ä' => ['a', '̈'] | 'ë' => ['e', '̈'] | 'ï' => ['i', '̈']
  | 'ö' => ['o', '̈'] | 'ü' => ['u', '̈']
  | 'Ä' => ['A', '̈'] | 'Ë' => ['E', '̈'] | 'Ï' => ['I', '̈']
  | 'Ö' => ['O', '̈'] | 'Ü' => ['U', '̈']
  | 'â' => ['a', '̂'] | 'ê' => ['e', '̂'] | 'î' => ['i', '̂']
  | 'ô' => ['o', '̂'] | 'û' => ['u', '̂']
  | 'ñ' => ['n', '̃'] | 'Ñ' => ['N', '̃']
  | 'ç' => ['c', '̧'] | 'Ç' => ['C', '̧']
  | _ => [c]

/-- Membership in Unicode category Mn (nonspacing combining marks), for the
marks that `nfdChar` can produce or that appear standalone in inputs. -/
def isMn (c : Char) : Bool :=
  c == '̀' || c == '́' || c == '̂' || c == '̃' ||
  c == '̄' || c == '̇' || c == '̈' || c == '̊' || c == '̧'

/-- Python `str.replace(pat, rep)`: replace every non-overlapping occurrence,
scanning left to right.  Fuel-driven so that the kernel can evaluate it; the
callers pass `fuel = cs.length`, which suffices because every step consumes
at least one character (all patterns in the sources are nonempty). -/
def replFuel (pat rep : List Char) : Nat → List Char → List Char
  | 0, cs => cs
  | _ + 1, [] => []
  | f + 1, c :: cs =>
    if pat ≠ [] ∧ pat.isPrefixOf (c :: cs) then
      rep ++ replFuel pat rep f ((c :: cs).drop pat.length)
    else
      c :: replFuel pat rep f cs

/-- Python `cs.replace(pat, rep)`. -/
def pyReplace (pat rep cs : List Char) : List Char :=
  replFuel pat rep cs.length cs

/-- Python `str.strip()`. -/
def pyStripWs (cs : List Char) : List Char :=
  ((cs.dropWhile pyIsWs).reverse.dropWhile pyIsWs).reverse

/-- Python `str.rstrip(set)`. -/
def pyRstrip (setChars cs : List Char) : List Char :=
  (cs.reverse.dropWhile (fun c => setChars.contains c)).reverse

/-- The effect of `re.sub(r"\s+", " ", s)`: every maximal whitespace run
becomes a single space. -/
def collapseWs : List Char → List Char
  | [] => []
  | [c] => if pyIsWs c then [' '] else [c]
  | c :: d :: cs =>
    if pyIsWs c ∧ pyIsWs d then collapseWs (d :: cs)
    else (if pyIsWs c then ' ' else c) :: collapseWs (d :: cs)

/-! ## html.unescape -/

/-- Modelled subset of the Python `html._html5` entity table: the named
character references that occur in the exam pages handled by the
repository.  Keys with and without the trailing semicolon mirror the HTML5
table, which lists the HTML4 entities in both forms. -/
def html5Entities : List (String × String) :=
  [("amp;", "&"), ("amp", "&"), ("lt;", "<"), ("lt", "<"),
   ("gt;", ">"), ("gt", ">"), ("quot;", "\""), ("quot", "\""),
   ("apos;", String.mk [aposC]), ("nbsp;", "\xa0"), ("nbsp", "\xa0"),
   ("aacute;", "á"), ("aacute", "á"), ("eacute;", "é"), ("eacute", "é"),
   ("iacute;", "í"), ("iacute", "í"), ("oacute;", "ó"), ("oacute", "ó"),
   ("uacute;", "ú"), ("uacute", "ú"), ("ntilde;", "ñ"), ("ntilde", "ñ"),
   ("uuml;", "ü"), ("uuml", "ü"), ("iquest;", "¿"), ("iexcl;", "¡"),
   ("ldquo;", "“"), ("rdquo;", "”"), ("lsquo;", "‘"), ("rsquo;", "’"),
   ("ordm;", "º"), ("ordf;", "ª"), ("Aacute;", "Á"), ("Aacute", "Á"),
   ("Eacute;", "É"), ("Eacute", "É"), ("Iacute;", "Í"), ("Iacute", "Í"),
   ("Oacute;", "Ó"), ("Oacute", "Ó"), ("Uacute;", "Ú"), ("Uacute", "Ú"),
   ("Ntilde;", "Ñ"), ("Ntilde", "Ñ")]

/-- Characters excluded from a named character reference by the scanning
pattern `[^\t\n\f <&#;]` of `html._charref`. -/
def charrefNameChar (c : Char) : Bool :=
  !(c == '\t' || c == '\n' || c == '\x0c' || c == ' ' || c == '<' || c == '&' || c == '#' || c == ';')

/-- Python `html._replace_charref` on a named reference `s` (which may end
with a semicolon): the longest prefix of length at least 2 that is a known
entity is replaced, the rest is emitted verbatim; with no known prefix the
reference stays literal (the leading ampersand included). -/
def entityExpand (s : List Char) : List Char :=
  match ((List.range (s.length + 1)).reverse.filter (fun x => 2 ≤ x)).findSome?
      (fun x => (html5Entities.find? (fun kv => kv.1.data == s.take x)).map
        (fun kv => kv.2.data ++ s.drop x)) with
  | some out => out
  | none => '&' :: s

/-- Value of a decimal digit. -/
def digVal (c : Char) : Nat := c.toNat - 48

/-- Numeric value of a decimal digit string. -/
def digitsVal (ds : List Char) : Nat :=
  ds.foldl (fun n c => n * 10 + digVal c) 0

/-- Python `chr` restricted to scalar values, as used by
`html._replace_charref` on numeric references; surrogates and
out-of-range values map to U+FFFD (the `_invalid_charrefs` table for the
C1 controls is not modelled: those references never occur in the pages). -/
def chrScalar (n : Nat) : Char :=
  if n < 0xd800 ∨ (0xe000 ≤ n ∧ n ≤ 0x10ffff) then Char.ofNat n else '�'

/-- One character-reference match attempt immediately after an ampersand:
returns the emitted characters and the unconsumed remainder, or `none`
when the regex `&(#[0-9]+;?|#[xX][0-9a-fA-F]+;?|[^\t\n\f <&#;]{1,32};?)`
does not match here. -/
def charrefAt (cs : List Char) : Option (List Char × List Char) :=
  match cs with
  | '#' :: rest =>
    match rest with
    | x :: rest2 =>
      if x == 'x' || x == 'X' then
        let hs := rest2.takeWhile (fun c => c.isDigit || ('a' ≤ c ∧ c ≤ 'f') || ('A' ≤ c ∧ c ≤ 'F'))
        if hs = [] then none
        else
          let rest3 := rest2.drop hs.length
          let rest4 := if rest3.head? = some ';' then rest3.drop 1 else rest3
          some ([chrScalar (hs.foldl (fun n c =>
            n * 16 + (if c.isDigit then digVal c else (pyLower c).toNat - 87)) 0)], rest4)
      else
        let ds := rest.takeWhile Char.isDigit
        if ds = [] then none
        else
          let rest3 := rest.drop ds.length
          let rest4 := if rest3.head? = some ';' then rest3.drop 1 else rest3
          some ([chrScalar (digitsVal ds)], rest4)
    | [] => none
  | _ =>
    let name := (cs.takeWhile charrefNameChar).take 32
    if name = [] then none
    else
      let rest := cs.drop name.length
      if rest.head? = some ';' then
        some (entityExpand (name ++ [';']), rest.drop 1)
      else
        some (entityExpand name, rest)

/-- Python `html.unescape`, fuel-driven (callers pass the string length,
which suffices: every step consumes at least one character). -/
def pyUnescapeFuel : Nat → List Char → List Char
  | 0, cs => cs
  | _ + 1, [] => []
  | f + 1, c :: cs =>
    if c = '&' then
      match charrefAt cs with
      | some (em, rest) => em ++ pyUnescapeFuel f rest
      | none => '&' :: pyUnescapeFuel f cs
    else
      c :: pyUnescapeFuel f cs

/-- Python `html.unescape(s)`. -/
def pyUnescape (cs : List Char) : List Char :=
  pyUnescapeFuel cs.length cs

/-! ## Citation-suffix stripping

Embedding of
`re.sub(r"\s*\((art|arts?|art[íi]culo|ejemplo|io|rj|situaci[oó]n|sit|v[0-9._-]+)[^)]+\)\s*$", "", s, flags=re.I)`
from `normalize_txt_strict`.  A match must end at the end of the string,
so at most one replacement happens: the matched region runs from the
whitespace immediately preceding an opening parenthesis `p` to the end,
where the body between `p` and the final closing parenthesis contains no
`)` and starts (case-insensitively) with one of the keyword alternatives
followed by at least one more character.  `re.sub` picks the leftmost
viable `p`. -/

/-- Whether the parenthesis body can be matched by the keyword alternation
followed by the mandatory `[^)]+`.  The alternatives `arts?`,
`art[íi]culo` and `situaci[oó]n` are subsumed by the prefixes `art` and
`sit`. -/
def kwOk (body : List Char) : Bool :=
  let lb := body.map pyLower
  (['a','r','t'].isPrefixOf lb && decide (3 < body.length)) ||
  (['e','j','e','m','p','l','o'].isPrefixOf lb && decide (7 < body.length)) ||
  (['i','o'].isPrefixOf lb && decide (2 < body.length)) ||
  (['r','j'].isPrefixOf lb && decide (2 < body.length)) ||
  (['s','i','t'].isPrefixOf lb && decide (3 < body.length)) ||
  (match lb with
   | 'v' :: c2 :: _ :: _ => c2.isDigit || c2 == '.' || c2 == '_' || c2 == '-'
   | _ => false)

/-- The slice of `cs` strictly between positions `p` and `j`. -/
def sliceBetween (cs : List Char) (p j : Nat) : List Char :=
  (cs.drop (p + 1)).take (j - (p + 1))

/-- Length of the whitespace run immediately before position `p`. -/
def wsRunBefore (cs : List Char) (p : Nat) : Nat :=
  ((cs.take p).reverse.takeWhile pyIsWs).length

/-- Start index of the citation-suffix match, if any. -/
def citationMatch (cs : List Char) : Option Nat :=
  match cs.reverse.dropWhile pyIsWs with
  | [] => none
  | c :: t =>
    if c ≠ ')' then none
    else
      let j := (c :: t).length - 1
      match (List.range j).find? (fun p =>
          cs.getD p ' ' == '(' &&
          (sliceBetween cs p j).all (fun d => d ≠ ')') &&
          kwOk (sliceBetween cs p j)) with
      | none => none
      | some p => some (p - wsRunBefore cs p)

/-- The citation-suffix `re.sub` itself. -/
def stripCitation (cs : List Char) : List Char :=
  match citationMatch cs with
  | some i => cs.take i
  | none => cs

/-! ## normalize_txt_strict (test_extractor.py) -/

/-- The trailing-punctuation set of `s.strip().rstrip(".;:¡!¿?[]()")`. -/
def punctChars : List Char :=
  ['.', ';', ':', '¡', '!', '¿', '?', '[', ']', '(', ')']

/-- Quote-glyph unification and quote-run collapsing of
`normalize_txt_strict` lines 98-100. -/
def quoteNorm (cs : List Char) : List Char :=
  pyReplace [aposC, aposC] [aposC]
    (pyReplace ['"', '"', '"'] ['"']
      (pyReplace ['"', '"', '"', '"'] ['"']
        (pyReplace ['‘'] [aposC]
          (pyReplace ['’'] [aposC]
            (pyReplace ['”'] ['"']
              (pyReplace ['“'] ['"'] cs))))))

/-- Character-level `normalize_txt_strict` (the `None → ""` guard of the
source is inapplicable: Lean strings are never `None`). -/
def normStrictChars (cs : List Char) : List Char :=
  let s1 := pyUnescape cs
  let s2 := quoteNorm s1
  let s3 := stripCitation s2
  let s4 := (s3.flatMap nfdChar).filter (fun c => !(isMn c))
  let s5 := s4.map pyLower
  let s6 := pyRstrip punctChars (pyStripWs s5)
  pyStripWs (collapseWs s6)

/-- `normalize_txt_strict` of src/test_extractor.py. -/
def normalize_txt_strict (s : String) : String :=
  String.mk (normStrictChars s.data)

/-- Character-level `clean_visible_text` (src/test_extractor.py lines
139-144), which is also the `_norm_out` helper inside
`parse_correct_answers_from_results`: entity decoding, quote-run
collapsing, whitespace collapsing and trimming, with accents kept. -/
def cleanVisibleChars (cs : List Char) : List Char :=
  pyStripWs (collapseWs
    (pyReplace [aposC, aposC] [aposC]
      (pyReplace ['"', '"', '"'] ['"']
        (pyReplace ['"', '"', '"', '"'] ['"'] (pyUnescape cs)))))

/-- `clean_visible_text` / `_norm_out` of src/test_extractor.py. -/
def clean_visible_text (s : String) : String :=
  String.mk (cleanVisibleChars s.data)

/-! ## difflib.SequenceMatcher

Embedding of the Ratcliff-Obershelp matching used by
`SequenceMatcher(None, o, target).ratio()`.  Junk handling is the
identity here: `isjunk` is `None` and the autojunk heuristic only
activates for a second sequence of 200+ characters, beyond anything the
pipeline feeds it. -/

/-- One row of the `j2len` table of `find_longest_match`: length of the common
suffix of `a[..i]` and `b[..j]` ending at `j`, given the previous row. -/
def flmRowLen (b : List Char) (blo bhi : Nat) (ai : Char) (prev : Nat → Nat) (j : Nat) : Nat :=
  if blo ≤ j ∧ j < bhi ∧ b.getD j ' ' = ai then
    (if j = 0 then 0 else prev (j - 1)) + 1
  else 0

/-- Best-block update pass over one row, keeping the first maximum
(`if k > bestsize`, with `i` then `j` ascending). -/
def flmScanRow (i blo bhi : Nat) (row : Nat → Nat) (st : Nat × Nat × Nat) : Nat × Nat × Nat :=
  (List.range' blo (bhi - blo)).foldl (fun acc j =>
    let k := row j
    if k > acc.2.2 then (i + 1 - k, j + 1 - k, k) else acc) st

/-- `find_longest_match(alo, ahi, blo, bhi)`: start in `a`, start in `b`,
and size of the longest matching block, ties resolved to the earliest
position in `a`, then in `b`. -/
def findLongestMatch (a b : List Char) (alo ahi blo bhi : Nat) : Nat × Nat × Nat :=
  let step := fun (st : (Nat → Nat) × Nat × Nat × Nat) (i : Nat) =>
    let row := flmRowLen b blo bhi (a.getD i ' ') st.1
    (row, flmScanRow i blo bhi row st.2)
  ((List.range' alo (ahi - alo)).foldl step (fun _ => 0, alo, blo, 0)).2

/-- Total number of matched characters over all matching blocks
(the recursion of `get_matching_blocks`), fuel-driven; the top-level
caller passes more fuel than the recursion depth can reach. -/
def matchTotalFuel (a b : List Char) : Nat → Nat → Nat → Nat → Nat → Nat
  | 0, _, _, _, _ => 0
  | f + 1, alo, ahi, blo, bhi =>
    let m := findLongestMatch a b alo ahi blo bhi
    if m.2.2 = 0 then 0
    else
      matchTotalFuel a b f alo m.1 blo m.2.1 + m.2.2 +
        matchTotalFuel a b f (m.1 + m.2.2) ahi (m.2.1 + m.2.2) bhi

/-- Sum of the sizes of all matching blocks of `a` and `b`. -/
def smMatches (a b : List Char) : Nat :=
  matchTotalFuel a b (a.length + b.length + 1) 0 a.length 0 b.length

/-- `SequenceMatcher(None, a, b).ratio()`, as an exact rational
(`2.0 * M / T`, and `1.0` when both sequences are empty).  The floating
point of the source cannot reorder these values at the sizes the
repository handles, since distinct ratios with denominators this small
differ by far more than the rounding error. -/
def smSimilarity (a b : List Char) : ℚ :=
  if a.length + b.length = 0 then 1
  else (2 * smMatches a b : ℚ) / ((a.length : ℚ) + (b.length : ℚ))

/-! ## best_option_match (test_extractor.py) -/

/-- One iteration of the fuzzy loop of `best_option_match`:
`if r > best_r: best_r, best_i = r, i`. -/
def fuzzyStep (target : List Char) (acc : Int × ℚ) (io : Nat × List Char) : Int × ℚ :=
  let r := smSimilarity io.2 target
  if r > acc.2 then ((io.1 : Int), r) else acc

/-- The fuzzy loop starting at enumeration index `k` with accumulator
`acc` (the general shape used to reason about `fuzzyScan`). -/
def fuzzyFoldFrom (target : List Char) (k : Nat) (l : List (List Char)) (acc : Int × ℚ) :
    Int × ℚ :=
  (List.enumFrom k l).foldl (fuzzyStep target) acc

/-- The fuzzy stage of `best_option_match`: fold over the enumerated
normalized options keeping the first strict maximum of the similarity
ratio, starting from `best_i, best_r = -1, -1.0`. -/
def fuzzyScan (optsNorm : List (List Char)) (target : List Char) : Int × ℚ :=
  optsNorm.enum.foldl (fuzzyStep target) ((-1 : Int), (-1 : ℚ))

/-- Python substring containment `p in l` (true for an empty `p`). -/
def listInfix (p l : List Char) : Bool :=
  (List.range (l.length + 1)).any (fun i => p.isPrefixOf (l.drop i))

/-- The per-option test of the exact stage: `o == target`. -/
def exactChk (target o : List Char) : Bool :=
  o == target

/-- The per-option test of the containment stage:
`o and (o in target or target in o)`. -/
def containChk (target o : List Char) : Bool :=
  o ≠ [] && (listInfix o target || listInfix target o)

/-- The exact stage of `best_option_match`: first index whose normalized
text equals the normalized candidate. -/
def exactIdx (optsNorm : List (List Char)) (target : List Char) : Option Nat :=
  optsNorm.findIdx? (exactChk target)

/-- The containment stage of `best_option_match`: first index whose
nonempty normalized text contains, or is contained in, the candidate. -/
def containIdx (optsNorm : List (List Char)) (target : List Char) : Option Nat :=
  optsNorm.findIdx? (containChk target)

/-- `best_option_match` of src/test_extractor.py: exact-match stage, then
containment stage, then fuzzy stage (whose result is returned whether or
not it clears the 0.80 threshold). -/
def best_option_match (correct_text : String) (opciones_texto : List String) : Int :=
  let target := normStrictChars correct_text.data
  let optsNorm := opciones_texto.map (fun x => normStrictChars x.data)
  match exactIdx optsNorm target with
  | some i => (i : Int)
  | none =>
    match containIdx optsNorm target with
    | some i => (i : Int)
    | none =>
      let best := fuzzyScan optsNorm target
      if best.2 ≥ (4 : ℚ) / 5 then best.1 else best.1

/-! ## Letter derivation -/

/-- The `LETTERS` constant shared by all three sources. -/
def LETTERS : List Char := "ABCDEFGHIJKLMNOPQRSTUVWXYZ".data

/-- `to_letter` of src/test_extractor.py:
`LETTERS[idx0] if 0 <= idx0 < len(LETTERS) else ""`. -/
def to_letter (idx0 : Int) : String :=
  if 0 ≤ idx0 ∧ idx0 < 26 then String.mk [LETTERS.getD idx0.toNat 'A'] else ""

/-- The `while i > 0` loop of `letter` in src/checker.py, as a recursion
on the quotient; fuel 64 covers every argument below `26 ^ 64`. -/
def letterFuel : Nat → Nat → List Char
  | 0, _ => []
  | _ + 1, 0 => []
  | f + 1, i => letterFuel f ((i - 1) / 26) ++ [Char.ofNat (65 + (i - 1) % 26)]

/-- `letter` of src/checker.py (bijective base-26 letters). -/
def letter (i : Int) : String :=
  String.mk (letterFuel 64 (i + 1).toNat)

/-! ## norm_text (checker.py) -/

/-- `norm_text` of src/checker.py: lowercase, trim, collapse whitespace
runs (no diacritic or citation handling, unlike the extractor). -/
def norm_text (s : String) : String :=
  String.mk (collapseWs (pyStripWs (s.data.map pyLower)))

/-! ## Extractor main flow (test_extractor.py steps 5-6)

The HTML mechanics of BeautifulSoup are out of scope; the grading-results
page is abstracted as the ordered per-question disclosure slots it
renders: `none` for a question answered correctly (the page prints a
`Respuesta correcta:` block only for failed questions), `some raw` for a
failed one.  `parse_correct_answers_from_results` walks the page in
order of appearance and collects the disclosed texts into a flat list,
which is exactly what the source does. -/

structure Pregunta where
  idx : Nat
  id_pregunta : String
  pregunta : String
  opciones_texto : List String
deriving DecidableEq

/-- `parse_correct_answers_from_results` of src/test_extractor.py: the
disclosed texts in order of appearance, each cleaned by `_norm_out`
(= `clean_visible_text`) and kept only when nonempty.  Questions whose
slot is `none` contribute nothing: the output list does not record which
question a text belonged to. -/
def parse_correct_answers_from_results (page : List (Option String)) : List String :=
  page.filterMap (fun slot =>
    slot.bind (fun raw =>
      let txt := clean_visible_text raw
      if txt = "" then none else some txt))

/-- The padding loop of `main` step 5:
`while len(correct_texts) < len(preguntas): correct_texts.append("")`. -/
def padCorrects (n : Nat) (ts : List String) : List String :=
  ts ++ List.replicate (n - ts.length) ""

/-- One iteration of `main` step 6: from a (possibly empty) correct text
and the option texts, the exported `(correcta, correcta_texto)` pair. -/
def resolveLetraTexto (correct_txt : String) (opciones_texto : List String) : String × String :=
  if correct_txt = "" then ("", "")
  else
    let pos := best_option_match correct_txt opciones_texto
    ((if 0 ≤ pos ∧ pos < 26 then String.mk [LETTERS.getD pos.toNat 'A'] else ""),
     (if 0 ≤ pos ∧ pos < (opciones_texto.length : Int) then opciones_texto.getD pos.toNat "" else ""))

/-- Steps 5-6 of `main` in src/test_extractor.py: parse the disclosed
texts, pad, then `zip(preguntas, correct_texts)` and resolve each pair;
the result lists, per question in order, its `idx` and its exported
`(correcta, correcta_texto)`. -/
def extractorResolve (preguntas : List Pregunta) (page : List (Option String)) :
    List (Nat × String × String) :=
  let correct_texts := padCorrects preguntas.length (parse_correct_answers_from_results page)
  (preguntas.zip correct_texts).map (fun pc => (pc.1.idx, resolveLetraTexto pc.2 pc.1.opciones_texto))

/-! ## parse_score_from_results (checker.py)

Embedding of `re.search(r"Tienes\s+(\d+)\s+aciertos\s+sobre\s+(\d+)", html, re.I)`:
the leftmost occurrence of the pattern, returning group 1 as an integer. -/

/-- Consume a case-insensitive literal keyword. -/
def eatCI (kw cs : List Char) : Option (List Char) :=
  if kw.isPrefixOf (cs.map pyLower) then some (cs.drop kw.length) else none

/-- Consume `\s+` (at least one whitespace character). -/
def eatWs1 (cs : List Char) : Option (List Char) :=
  let w := cs.takeWhile pyIsWs
  if w = [] then none else some (cs.drop w.length)

/-- Consume `\d+`, returning the digits and the remainder. -/
def eatDigits (cs : List Char) : Option (List Char × List Char) :=
  let d := cs.takeWhile Char.isDigit
  if d = [] then none else some (d, cs.drop d.length)

/-- Attempt the score pattern at the head of `cs`. -/
def scoreMatchAt (cs : List Char) : Option Nat := do
  let r1 ← eatCI ['t','i','e','n','e','s'] cs
  let r2 ← eatWs1 r1
  let (d1, r3) ← eatDigits r2
  let r4 ← eatWs1 r3
  let r5 ← eatCI ['a','c','i','e','r','t','o','s'] r4
  let r6 ← eatWs1 r5
  let r7 ← eatCI ['s','o','b','r','e'] r6
  let r8 ← eatWs1 r7
  let _ ← eatDigits r8
  pure (digitsVal d1)

/-- Leftmost-match scan (fuel-driven over the scan position). -/
def scanScore : Nat → List Char → Option Nat
  | 0, _ => none
  | _ + 1, [] => none
  | f + 1, c :: cs =>
    match scoreMatchAt (c :: cs) with
    | some n => some n
    | none => scanScore f cs

/-- `parse_score_from_results` of src/checker.py. -/
def parse_score_from_results (page : String) : Option Nat :=
  scanScore (page.length + 1) page.data

/-! ## parse_correct_from_results (checker.py)

The BeautifulSoup traversal is abstracted: the input is the ordered list
of `(idx_hum, raw_correct_text)` pairs the page renders for the failed
questions (`idx_hum` is the 1-based number printed in the `<b>` header).
The function keeps the per-question keying and strips a trailing
parenthetical with `re.sub(r"\s*\(.*?\)\s*$", "", corr).strip()`. -/

/-- Start index of the lazy trailing-parenthetical match: the string must
end (up to whitespace) with `)`, and the match starts at the whitespace
run before the first `(` of the string. -/
def lazyParenMatch (cs : List Char) : Option Nat :=
  match cs.reverse.dropWhile pyIsWs with
  | [] => none
  | c :: t =>
    if c ≠ ')' then none
    else
      let j := (c :: t).length - 1
      match (List.range j).find? (fun p => cs.getD p ' ' == '(') with
      | none => none
      | some p => some (p - wsRunBefore cs p)

/-- `re.sub(r"\s*\(.*?\)\s*$", "", s).strip()` from
`parse_correct_from_results`. -/
def stripTrailingParen (s : String) : String :=
  let cs := s.data
  String.mk (pyStripWs (match lazyParenMatch cs with
    | some i => cs.take i
    | none => cs))

/-- `parse_correct_from_results` of src/checker.py:
`{idx_hum - 1 -> stripped correct text}` for each failed question. -/
def parse_correct_from_results (page : List (Nat × String)) : List (Nat × String) :=
  page.map (fun it => (it.1 - 1, stripTrailingParen it.2))

/-! ## Knowledge base (checker.py) -/

/-- Shape of an `opciones` / `respuestas` / `answers` field: a JSON
object keyed by letters, or a JSON array in option order. -/
inductive KBOpts where
  | dict (kvs : List (String × String))
  | list (xs : List String)
deriving DecidableEq

/-- JSON records are modelled as records of optional fields — exactly the
keys the three sources ever `get`.  An absent key is `none`. -/
structure QEntry where
  id_pregunta : Option String := none
  id : Option String := none
  idx : Option Nat := none
  pregunta : Option String := none
  enunciado : Option String := none
  question : Option String := none
  correcta : Option String := none
  respuesta_correcta : Option String := none
  solution_letter : Option String := none
  solution : Option String := none
  correct_text : Option String := none
  respuesta : Option String := none
  solucion_texto : Option String := none
  opciones : Option KBOpts := none
  respuestas : Option KBOpts := none
  answers : Option KBOpts := none
  solucion : Option String := none
deriving DecidableEq

/-- Python truthiness of an optional string (`None` and `""` are falsy). -/
def truthyS : Option String → Bool
  | some s => s ≠ ""
  | none => false

/-- Python `a or b` on optional strings: `b` is returned unaltered
(possibly `None` or `""`) when `a` is falsy. -/
def pyOrS (a b : Option String) : Option String :=
  if truthyS a then a else b

/-- Python truthiness of an optional `KBOpts` (empty containers falsy). -/
def truthyOpts : Option KBOpts → Bool
  | some (.dict kvs) => kvs ≠ []
  | some (.list xs) => xs ≠ []
  | none => false

/-- Python `a or b` on optional `KBOpts`. -/
def pyOrOpts (a b : Option KBOpts) : Option KBOpts :=
  if truthyOpts a then a else b

/-- The `id_pregunta or id` key under which `build_kb_indices` registers
an entry in `by_id` (skipped when falsy). -/
def kbIdKey (e : QEntry) : Option String :=
  let k := pyOrS e.id_pregunta e.id
  if truthyS k then k else none

/-- `by_id` lookup: `by_id[key] = e` overwrites, so the last entry with
the key wins. -/
def kb_by_id_get (kb : List QEntry) (pid : String) : Option QEntry :=
  kb.reverse.find? (fun e => kbIdKey e == some pid)

/-- The `pregunta or enunciado or question` text under which
`build_kb_indices` registers an entry in `by_text` (skipped when falsy). -/
def kbQText (e : QEntry) : Option String :=
  let q := pyOrS (pyOrS e.pregunta e.enunciado) e.question
  if truthyS q then q else none

/-- `by_text` lookup followed by `lst[0]`: the first entry (in kb order)
whose normalized text equals the key. -/
def kb_by_text_get (kb : List QEntry) (key : String) : Option QEntry :=
  kb.find? (fun e => (kbQText e).map norm_text == some key)

/-- `re.fullmatch(r"[A-Za-z]", v.strip())`. -/
def isSingleAlpha (s : String) : Bool :=
  match pyStripWs s.data with
  | [c] => (65 ≤ c.toNat ∧ c.toNat ≤ 90) || (97 ≤ c.toNat ∧ c.toNat ≤ 122)
  | _ => false

/-- The letter-field loop of `kb_get_answer_letter`: first of
`correcta`, `respuesta_correcta`, `solution_letter`, `solution` that is a
single ASCII letter (after stripping), uppercased. -/
def letterFieldGet (e : QEntry) : Option String :=
  [e.correcta, e.respuesta_correcta, e.solution_letter, e.solution].findSome? (fun v =>
    match v with
    | some s => if isSingleAlpha s then some (String.mk ((pyStripWs s.data).map pyUpper)) else none
    | none => none)

/-- `entry.get("correct_text") or entry.get("respuesta") or entry.get("solucion_texto")`. -/
def textFieldGet (e : QEntry) : Option String :=
  pyOrS (pyOrS e.correct_text e.respuesta) e.solucion_texto

/-- Tuple-lexicographic strict order on string pairs, as used by Python
`sorted(opts.items())`. -/
def pairLt (a b : String × String) : Bool :=
  decide (a.1 < b.1) || (a.1 == b.1 && decide (a.2 < b.2))

/-- Insertion into an ascending list (stable). -/
def insPair (x : String × String) : List (String × String) → List (String × String)
  | [] => [x]
  | y :: ys => if pairLt y x then y :: insPair x ys else x :: y :: ys

/-- Python `sorted` on the items of a letter-keyed option object. -/
def sortPairs (l : List (String × String)) : List (String × String) :=
  l.foldr insPair []

/-- The by-text half of `kb_get_answer_letter`: scan the sorted object
items (returning the key) or the array (returning `letter(i)`) for the
first option whose normalized text equals the normalized correct text. -/
def kbOptsLetter (opts : KBOpts) (ctext : String) : Option String :=
  match opts with
  | .dict kvs =>
    ((sortPairs kvs).find? (fun kv => norm_text kv.2 == norm_text ctext)).map (fun kv => kv.1)
  | .list xs =>
    (xs.findIdx? (fun t => norm_text t == norm_text ctext)).map (fun i => letter (i : Int))

/-- Python `int(v)` on a string: optional sign and decimal digits after
stripping whitespace, `none` when `int` would raise. -/
def parseIntOpt (s : String) : Option Int :=
  match pyStripWs s.data with
  | '-' :: ds => if ds ≠ [] ∧ ds.all Char.isDigit then some (-(digitsVal ds : Int)) else none
  | '+' :: ds => if ds ≠ [] ∧ ds.all Char.isDigit then some (digitsVal ds : Int) else none
  | ds => if ds ≠ [] ∧ ds.all Char.isDigit then some (digitsVal ds : Int) else none

/-- `kb_get_answer_letter` of src/checker.py. -/
def kb_get_answer_letter (e : QEntry) : Option String :=
  match letterFieldGet e with
  | some L => some L
  | none =>
    let fromText :=
      match textFieldGet e with
      | some ct =>
        if ct ≠ "" then
          match pyOrOpts (pyOrOpts e.opciones e.respuestas) e.answers with
          | some opts => kbOptsLetter opts ct
          | none => none
        else none
      | none => none
    match fromText with
    | some L => some L
    | none =>
      match e.solucion with
      | some v =>
        match parseIntOpt v with
        | some i =>
          if 1 ≤ i ∧ i ≤ 26 then some (String.mk [LETTERS.getD (i - 1).toNat 'A']) else none
        | none => none
      | none => none

/-- One question of the checker (`Pregunta` dataclass of src/checker.py). -/
structure PreguntaC where
  idx : Nat
  id_pregunta : String
  pregunta : String
  opciones_val : List String
  opciones_texto : List String
deriving DecidableEq

/-- `choose_from_kb` of src/checker.py. -/
def choose_from_kb (p : PreguntaC) (kb : List QEntry) : Option Nat :=
  let byId := if p.id_pregunta ≠ "" then kb_by_id_get kb p.id_pregunta else none
  let entry :=
    match byId with
    | some e => some e
    | none => kb_by_text_get kb (norm_text p.pregunta)
  match entry with
  | none => none
  | some e =>
    let fromLetter :=
      match kb_get_answer_letter e with
      | some L =>
        if L ≠ "" then
          match L.data with
          | [c] =>
            match LETTERS.findIdx? (fun d => d == c) with
            | some pos => if pos < p.opciones_texto.length then some pos else none
            | none => none
          | _ => none
        else none
      | none => none
    match fromLetter with
    | some pos => some pos
    | none =>
      match textFieldGet e with
      | some ct =>
        if ct ≠ "" then p.opciones_texto.findIdx? (fun t => norm_text t == norm_text ct)
        else none
      | none => none

/-! ## Payload and solver outcome (checker.py) -/

/-- Step 4 of `main` in src/checker.py: KB choice with fallback to 0. -/
def mainChosenPos (kb : List QEntry) (p : PreguntaC) : Nat :=
  (choose_from_kb p kb).getD 0

/-- The `chosen_positions` dict of `main`, as `(idx, pos)` pairs. -/
def chosenMap (kb : List QEntry) (preguntas : List PreguntaC) : List (Nat × Nat) :=
  preguntas.map (fun p => (p.idx, mainChosenPos kb p))

/-- Dict lookup with default (last write wins, like a Python dict built
by repeated assignment). -/
def dictGetD (l : List (Nat × Nat)) (k d : Nat) : Nat :=
  ((l.reverse.find? (fun kv => kv.1 == k)).map (fun kv => kv.2)).getD d

/-- Dict lookup returning an optional value. -/
def dictGetS (l : List (Nat × String)) (k : Nat) : Option String :=
  (l.reverse.find? (fun kv => kv.1 == k)).map (fun kv => kv.2)

/-- The clamp `pos = max(0, min(pos, len(p.opciones_val) - 1))`. -/
def clampPos (pos n : Nat) : Nat :=
  (max 0 (min (pos : Int) ((n : Int) - 1))).toNat

/-- The value submitted for one question:
`p.opciones_val[max(0, min(pos, len - 1))]`.  (With an empty option list
the source raises IndexError; the `getD` default marks that case, which
no caller reaches in the theorems below.) -/
def payloadOpcionValue (p : PreguntaC) (pos : Nat) : String :=
  p.opciones_val.getD (clampPos pos p.opciones_val.length) ""

/-- `build_payload_from_choices` of src/checker.py, as the ordered list
of form-field insertions. -/
def build_payload_from_choices (preguntas : List PreguntaC) (chosen_positions : List (Nat × Nat))
    (tipo : String) (preguntas_n : Nat) : List (String × String) :=
  [("tipo", tipo), ("preguntas", toString preguntas_n), ("enviar", "Corregir test")] ++
  preguntas.flatMap (fun p =>
    [("id" ++ toString p.idx, p.id_pregunta),
     ("opcion" ++ toString p.idx, payloadOpcionValue p (dictGetD chosen_positions p.idx 0))])

/-- One element of `export_items` in `main` of src/checker.py. -/
structure ExportItem where
  idx : Nat
  id_pregunta : String
  pregunta : String
  opciones : List String
  elegida_letra : Option String
  elegida_texto : String
  correcta_texto : Option String
deriving DecidableEq

/-- Outcome of the post-grading part of `main` (steps 5-6) of
src/checker.py: the parsed score (`None` when unreadable), the printed
`aciertos` fallback `score if score is not None else 0`, and the
`export_items` built for every question regardless of the score. -/
structure SolverOutcome where
  score : Option Nat
  total : Nat
  aciertos : Nat
  items : List ExportItem
  scoreUnreadable : Bool
deriving DecidableEq

/-- Steps 5-6 of `main` in src/checker.py. -/
def solverOutcome (preguntas : List PreguntaC) (chosen_positions : List (Nat × Nat))
    (res_page : String) (corrPage : List (Nat × String)) : SolverOutcome :=
  let score := parse_score_from_results res_page
  let correct_by_idx := parse_correct_from_results corrPage
  let items := preguntas.map (fun p =>
    ({ idx := p.idx,
       id_pregunta := p.id_pregunta,
       pregunta := p.pregunta,
       opciones := p.opciones_texto,
       elegida_letra :=
         if (chosen_positions.find? (fun kv => kv.1 == p.idx)).isSome then
           some (letter ((dictGetD chosen_positions p.idx 0 : Nat) : Int))
         else none,
       elegida_texto := p.opciones_texto.getD (dictGetD chosen_positions p.idx 0) "",
       correcta_texto := dictGetS correct_by_idx p.idx } : ExportItem))
  { score := score,
    total := preguntas.length,
    aciertos := score.getD 0,
    items := items,
    scoreUnreadable := score.isNone }

/-- The whole post-generation flow of `main` in src/checker.py: choose
positions from the KB, then grade and report. -/
def checkerRun (kb : List QEntry) (preguntas : List PreguntaC) (res_page : String)
    (corrPage : List (Nat × String)) : SolverOutcome :=
  solverOutcome preguntas (chosenMap kb preguntas) res_page corrPage

/-! ## Knowledge-base merge (collector.py) -/

/-- Rendering of an optional integer inside the fallback f-string
(the fallback f-string `idx...`: a missing key prints as `None`). -/
def optNatRepr : Option Nat → String
  | some n => toString n
  | none => "None"

/-- Rendering of an optional string inside the fallback f-string. -/
def optStrRepr : Option String → String
  | some s => s
  | none => "None"

/-- The merge key of `merge_into_map`:
`p.get("id_pregunta") or p.get("id") or None`, falling back to
the f-string `idx` + `idx`-field + `_` + (`pregunta` or `enunciado`). -/
def merge_key (p : QEntry) : String :=
  let k := pyOrS p.id_pregunta p.id
  if truthyS k then k.getD "" else
    "idx" ++ optNatRepr p.idx ++ "_" ++ optStrRepr (pyOrS p.pregunta p.enunciado)

/-- `merge_into_map` of src/collector.py: insert each extracted entry
whose key is not yet present; returns `(new_items, updated_map)` (the
source returns `(len(new_items), len(map), new_items)` while mutating
the map in place — the counts are the lengths of these components). -/
def merge_into_map (existing_map : List (String × QEntry)) :
    List QEntry → List QEntry × List (String × QEntry)
  | [] => ([], existing_map)
  | p :: rest =>
    let k := merge_key p
    if (existing_map.find? (fun kv => kv.1 == k)).isSome then
      merge_into_map existing_map rest
    else
      let res := merge_into_map (existing_map ++ [(k, p)]) rest
      (p :: res.1, res.2)

/-- Lookup of the stored entry for a key. -/
def mapGet (m : List (String × QEntry)) (k : String) : Option QEntry :=
  (m.find? (fun kv => kv.1 == k)).map (fun kv => kv.2)

/-! ## Tame strings

The restricted class of strings on which a second `normalize_txt_strict`
pass is provably the identity (used for the amended idempotence claim):
ASCII lowercase letters, digits and single interior spaces. -/

/-- Characters on which every stage of the normalization pipeline is
inert. -/
def tameChar (c : Char) : Bool :=
  (97 ≤ c.toNat && c.toNat ≤ 122) || (48 ≤ c.toNat && c.toNat ≤ 57) || c == ' '

/-- No two adjacent whitespace characters. -/
def noAdjWs : List Char → Bool
  | [] => true
  | [_] => true
  | c :: d :: cs => !(pyIsWs c && pyIsWs d) && noAdjWs (d :: cs)

/-- Membership in the tame class: tame characters only, single interior
spaces, nonspace edges. -/
def tameStr (s : String) : Bool :=
  s.data.all tameChar && noAdjWs s.data &&
    (match s.data.head? with | some c => !(pyIsWs c) | none => true) &&
    (match s.data.getLast? with | some c => !(pyIsWs c) | none => true)

/-! # Helper lemmas -/

theorem getElem?_zip_eq {α β : Type} (l₁ : List α) (l₂ : List β) (i : Nat) :
    (l₁.zip l₂)[i]? = (l₁[i]?).bind (fun a => (l₂[i]?).map (fun b => (a, b))) := by
  induction l₁ generalizing l₂ i with
  | nil => simp
  | cons a as ih =>
    cases l₂ with
    | nil => simp
    | cons b bs =>
      cases i with
      | zero => simp
      | succ n => simpa using ih bs n

theorem padCorrects_length (n : Nat) (ts : List String) :
    (padCorrects n ts).length = max ts.length n := by
  simp [padCorrects]
  omega

theorem resolveLetraTexto_empty (opts : List String) :
    resolveLetraTexto "" opts = ("", "") := by
  simp [resolveLetraTexto]

/-! # Claim C10 -/

/-- Claim C10: the two letter-derivation functions agree on the
single-letter range — for `0 ≤ i ≤ 25`, `to_letter i` of the extractor
and `letter i` of the solver both return the i-th uppercase letter. -/
theorem claim_C10_letters_agree :
    ∀ i : Nat, i ≤ 25 →
      to_letter (i : Int) = letter (i : Int) ∧
      to_letter (i : Int) = String.mk [Char.ofNat (65 + i)] := by decide

/-- Witness for C10 at `i = 3`. -/
theorem claim_C10_witness :
    (3 : Nat) ≤ 25 ∧ to_letter (3 : Int) = letter (3 : Int) :=
  ⟨by decide, (claim_C10_letters_agree 3 (by decide)).1⟩

/-! # Claim C1 -/

/-- Claim C1 counterexample: on an exam with one three-option question
whose baseline answer is correct (no disclosure), the extractor exports
an empty correct letter and empty correct text, whereas the claimed
fallback to position 0 would give `to_letter 0 = "A"` and the first
option text `"x"`.  No probing loop exists in the source: the pipeline is
a pure function of the single baseline results page. -/
theorem claim_C1_counterexample :
    extractorResolve [⟨0, "17", "q?", ["x", "y", "z"]⟩] [none] = [(0, "", "")] ∧
    ("" : String) ≠ to_letter 0 ∧ ("" : String) ≠ "x" := by decide

/-- Claim C1 (amended): the extractor performs no probing — for every
question whose (padded) disclosed correct text is empty, the exported
pair is the empty letter and empty text; no fallback to position 0
occurs. -/
theorem claim_C1_no_probing (preguntas : List Pregunta) (page : List (Option String)) (i : Nat)
    (hi : i < preguntas.length)
    (hempty :
      (padCorrects preguntas.length (parse_correct_answers_from_results page)).getD i "" = "") :
    ((extractorResolve preguntas page).getD i (0, "A", "A")).2 = ("", "") := by
  have hpl : i < (padCorrects preguntas.length (parse_correct_answers_from_results page)).length := by
    have h := padCorrects_length preguntas.length (parse_correct_answers_from_results page)
    omega
  obtain ⟨p, hp⟩ : ∃ p, preguntas[i]? = some p := ⟨_, List.getElem?_eq_getElem hi⟩
  obtain ⟨t, ht⟩ :
      ∃ t, (padCorrects preguntas.length (parse_correct_answers_from_results page))[i]? = some t :=
    ⟨_, List.getElem?_eq_getElem hpl⟩
  have ht0 : t = "" := by
    rw [List.getD_eq_getElem?_getD, ht] at hempty
    simpa using hempty
  unfold extractorResolve
  rw [List.getD_eq_getElem?_getD, List.getElem?_map, getElem?_zip_eq, hp, ht, ht0]
  simp [resolveLetraTexto_empty]

/-- Witness for the amended C1. -/
theorem claim_C1_witness :
    (0 : Nat) < ([⟨0, "17", "q?", ["x", "y", "z"]⟩] : List Pregunta).length ∧
    (padCorrects 1 (parse_correct_answers_from_results [none])).getD 0 "" = "" ∧
    ((extractorResolve [⟨0, "17", "q?", ["x", "y", "z"]⟩] [none]).getD 0 (0, "A", "A")).2 =
      ("", "") :=
  ⟨by decide, by decide,
    claim_C1_no_probing [⟨0, "17", "q?", ["x", "y", "z"]⟩] [none] 0 (by decide) (by decide)⟩

/-! # Claim C2 -/

/-- Claim C2 (code-bug evidence): the disclosure parsing of the extractor is a
flat list in order of appearance, and `main` pairs it with the questions
positionally after padding.  With question 0 answered correctly (no
disclosure) and question 1 wrong with disclosed text "Falta grave", the
disclosed text is associated with question 0 and question 1 receives the
empty padding — the per-question association of the claim is violated. -/
theorem claim_C2_misassociation :
    parse_correct_answers_from_results [none, some "Falta grave"] = ["Falta grave"] ∧
    (([⟨0, "a", "q0?", ["si", "no"]⟩, ⟨1, "b", "q1?", ["Falta", "Falta grave"]⟩] :
          List Pregunta).zip
        (padCorrects 2 (parse_correct_answers_from_results [none, some "Falta grave"]))).map
      (fun pc => (pc.1.idx, pc.2)) = [(0, "Falta grave"), (1, "")] := by decide

/-! # Claim C3 -/

/-- Claim C3 counterexample: on a results page with no parseable score
the solver run still produces its downstream result — the score is
`none`, printed `aciertos` falls back to 0, and the export items are
built — contradicting the claimed fatal failure. -/
theorem claim_C3_counterexample :
    parse_score_from_results "sin nota aqui" = none ∧
    (solverOutcome [⟨0, "id0", "q?", ["v1", "v2"], ["t1", "t2"]⟩] [(0, 1)]
        "sin nota aqui" []).score = none ∧
    (solverOutcome [⟨0, "id0", "q?", ["v1", "v2"], ["t1", "t2"]⟩] [(0, 1)]
        "sin nota aqui" []).items.length = 1 := by decide

/-- Claim C3 (amended): an unparseable score is handled non-fatally by
src/checker.py — the score is recorded as absent, `aciertos` defaults to
0, the run is marked score-unreadable, and the per-question items are
still produced for every question. -/
theorem claim_C3_nonfatal (preguntas : List PreguntaC) (chosen : List (Nat × Nat))
    (page : String) (corr : List (Nat × String))
    (h : parse_score_from_results page = none) :
    (solverOutcome preguntas chosen page corr).score = none ∧
    (solverOutcome preguntas chosen page corr).scoreUnreadable = true ∧
    (solverOutcome preguntas chosen page corr).aciertos = 0 ∧
    (solverOutcome preguntas chosen page corr).items.length = preguntas.length := by
  simp [solverOutcome, h]

/-- Witness for the amended C3. -/
theorem claim_C3_witness :
    parse_score_from_results "respuesta vacia" = none ∧
    (solverOutcome [⟨2, "id2", "q?", ["v1"], ["t1"]⟩] [] "respuesta vacia" []).score = none ∧
    (solverOutcome [⟨2, "id2", "q?", ["v1"], ["t1"]⟩] [] "respuesta vacia" []).items.length = 1 :=
  ⟨by decide,
    (claim_C3_nonfatal [⟨2, "id2", "q?", ["v1"], ["t1"]⟩] [] "respuesta vacia" [] (by decide)).1,
    (claim_C3_nonfatal [⟨2, "id2", "q?", ["v1"], ["t1"]⟩] [] "respuesta vacia" [] (by decide)).2.2.2⟩

/-! # Claim C5 -/

theorem mapGet_merge (l : List QEntry) :
    ∀ (m : List (String × QEntry)) (k : String),
      mapGet (merge_into_map m l).2 k =
        match mapGet m k with
        | some v => some v
        | none => l.find? (fun p => merge_key p == k) := by
  induction l with
  | nil =>
    intro m k
    simp only [merge_into_map, List.find?_nil]
    cases mapGet m k <;> rfl
  | cons p rest ih =>
    intro m k
    by_cases hfound : (m.find? (fun kv => kv.1 == merge_key p)).isSome
    · have hstep : merge_into_map m (p :: rest) = merge_into_map m rest := by
        simp [merge_into_map, hfound]
      rw [hstep, ih m k]
      by_cases hk : merge_key p = k
      · have hmk : (mapGet m k).isSome := by
          rw [← hk]
          simpa [mapGet] using hfound
        obtain ⟨v, hv⟩ := Option.isSome_iff_exists.mp hmk
        rw [hv]
      · have hb : (merge_key p == k) = false := by simp [hk]
        rw [List.find?_cons, hb]
    · have hnone : m.find? (fun kv => kv.1 == merge_key p) = none :=
        Option.not_isSome_iff_eq_none.mp hfound
      have hstep : (merge_into_map m (p :: rest)).2 =
          (merge_into_map (m ++ [(merge_key p, p)]) rest).2 := by
        simp [merge_into_map, hnone]
      rw [hstep, ih (m ++ [(merge_key p, p)]) k]
      by_cases hk : merge_key p = k
      · subst hk
        have hmk : mapGet m (merge_key p) = none := by
          simp [mapGet, hnone]
        have hmk2 : mapGet (m ++ [(merge_key p, p)]) (merge_key p) = some p := by
          simp [mapGet, List.find?_append, hnone, List.find?]
        rw [hmk2, hmk, List.find?_cons]
        simp
      · have hb : (merge_key p == k) = false := by simp [hk]
        have hmk2 : mapGet (m ++ [(merge_key p, p)]) k = mapGet m k := by
          simp [mapGet, List.find?_append, List.find?, hb]
        rw [hmk2, List.find?_cons, hb]

/-- Claim C5: the knowledge-base merge is write-once — merging an entry
for key K and then a different entry for the same K leaves K bound to the
first value; an entry is added only when its key is absent; existing
entries are never overwritten. -/
theorem claim_C5_write_once :
    (∀ (m : List (String × QEntry)) (e1 e2 : QEntry),
        merge_key e2 = merge_key e1 →
        mapGet m (merge_key e1) = none →
        mapGet (merge_into_map (merge_into_map m [e1]).2 [e2]).2 (merge_key e1) = some e1) ∧
    (∀ (m : List (String × QEntry)) (l : List QEntry) (k : String) (v : QEntry),
        mapGet m k = some v → mapGet (merge_into_map m l).2 k = some v) ∧
    (∀ (m : List (String × QEntry)) (l : List QEntry) (k : String),
        mapGet m k = none →
        mapGet (merge_into_map m l).2 k = l.find? (fun p => merge_key p == k)) := by
  refine ⟨?_, ?_, ?_⟩
  · intro m e1 e2 _ h0
    have h1 : mapGet (merge_into_map m [e1]).2 (merge_key e1) = some e1 := by
      rw [mapGet_merge, h0]
      simp [List.find?]
    rw [mapGet_merge, h1]
  · intro m l k v h
    rw [mapGet_merge, h]
  · intro m l k h
    rw [mapGet_merge, h]

/-- Witness for C5: two merges of different entries under the key "7"
into an empty map leave the first entry stored. -/
theorem claim_C5_witness :
    merge_key ({ id_pregunta := some "7", correcta := some "B" } : QEntry) =
      merge_key ({ id_pregunta := some "7", correcta := some "A" } : QEntry) ∧
    mapGet [] (merge_key ({ id_pregunta := some "7", correcta := some "A" } : QEntry)) = none ∧
    mapGet (merge_into_map (merge_into_map []
          [({ id_pregunta := some "7", correcta := some "A" } : QEntry)]).2
        [({ id_pregunta := some "7", correcta := some "B" } : QEntry)]).2
        (merge_key ({ id_pregunta := some "7", correcta := some "A" } : QEntry)) =
      some ({ id_pregunta := some "7", correcta := some "A" } : QEntry) :=
  ⟨by decide, by decide,
    claim_C5_write_once.1 [] ({ id_pregunta := some "7", correcta := some "A" } : QEntry)
      ({ id_pregunta := some "7", correcta := some "B" } : QEntry) (by decide) (by decide)⟩

/-! # Matcher lemmas (for C6, C7, C8) -/

theorem findIdx?_go_spec {α : Type} (p : α → Bool) (d : α) :
    ∀ (l : List α) (s i : Nat), List.findIdx? p l s = some i →
      s ≤ i ∧ i - s < l.length ∧ p (l.getD (i - s) d) = true ∧
        ∀ j, j < i - s → p (l.getD j d) = false := by
  intro l
  induction l with
  | nil => intro s i h; simp [List.findIdx?_nil] at h
  | cons a as ih =>
    intro s i h
    rw [List.findIdx?_cons] at h
    by_cases hp : p a = true
    · rw [if_pos hp] at h
      obtain rfl : s = i := by simpa using h
      refine ⟨le_refl _, by simp, ?_, ?_⟩
      · simpa using hp
      · intro j hj
        omega
    · rw [if_neg hp] at h
      obtain ⟨hs, hlen, hpi, hbelow⟩ := ih (s + 1) i h
      have his : i - s = (i - (s + 1)) + 1 := by omega
      refine ⟨by omega, by simp; omega, ?_, ?_⟩
      · rw [his]
        simpa using hpi
      · intro j hj
        cases j with
        | zero => simpa using eq_false_of_ne_true hp
        | succ j0 =>
          have : j0 < i - (s + 1) := by omega
          simpa using hbelow j0 this

theorem findIdx?_spec {α : Type} (p : α → Bool) (d : α) (l : List α) (i : Nat)
    (h : l.findIdx? p = some i) :
    i < l.length ∧ p (l.getD i d) = true ∧ ∀ j, j < i → p (l.getD j d) = false := by
  obtain ⟨_, hlen, hpi, hbelow⟩ := findIdx?_go_spec p d l 0 i h
  simp only [Nat.sub_zero] at hlen hpi hbelow
  exact ⟨hlen, hpi, hbelow⟩

theorem findIdx?_go_none {α : Type} (p : α → Bool) (d : α) :
    ∀ (l : List α) (s : Nat), List.findIdx? p l s = none →
      ∀ j, j < l.length → p (l.getD j d) = false := by
  intro l
  induction l with
  | nil => intro s _ j hj; simp at hj
  | cons a as ih =>
    intro s h j hj
    rw [List.findIdx?_cons] at h
    by_cases hp : p a = true
    · rw [if_pos hp] at h; exact absurd h (by simp)
    · rw [if_neg hp] at h
      cases j with
      | zero => simpa using eq_false_of_ne_true hp
      | succ j0 =>
        have : j0 < as.length := by simpa using hj
        simpa using ih (s + 1) h j0 this

theorem smSimilarity_nonneg (a b : List Char) : 0 ≤ smSimilarity a b := by
  unfold smSimilarity
  split
  · norm_num
  · positivity

theorem fuzzyFoldFrom_nil (target : List Char) (k : Nat) (acc : Int × ℚ) :
    fuzzyFoldFrom target k [] acc = acc := rfl

theorem fuzzyFoldFrom_cons (target : List Char) (k : Nat) (x : List Char) (xs : List (List Char))
    (acc : Int × ℚ) :
    fuzzyFoldFrom target k (x :: xs) acc =
      fuzzyFoldFrom target (k + 1) xs (fuzzyStep target acc (k, x)) := by
  simp [fuzzyFoldFrom, List.enumFrom_cons]

theorem fuzzyFold_inv (target : List Char) :
    ∀ (l : List (List Char)) (k : Nat) (acc : Int × ℚ), acc.1 < (k : Int) →
      (fuzzyFoldFrom target k l acc = acc ∨
        ∃ j, j < l.length ∧ (fuzzyFoldFrom target k l acc).1 = (k : Int) + (j : Int) ∧
          (fuzzyFoldFrom target k l acc).2 = smSimilarity (l.getD j []) target) ∧
      acc.2 ≤ (fuzzyFoldFrom target k l acc).2 ∧
      (fuzzyFoldFrom target k l acc).1 < (k : Int) + (l.length : Int) ∧
      (fuzzyFoldFrom target k l acc ≠ acc → acc.2 < (fuzzyFoldFrom target k l acc).2) ∧
      (∀ j, j < l.length →
        smSimilarity (l.getD j []) target ≤ (fuzzyFoldFrom target k l acc).2) ∧
      (∀ j, j < l.length → (k : Int) + (j : Int) < (fuzzyFoldFrom target k l acc).1 →
        smSimilarity (l.getD j []) target < (fuzzyFoldFrom target k l acc).2) := by
  intro l
  induction l with
  | nil =>
    intro k acc hacc
    rw [fuzzyFoldFrom_nil]
    refine ⟨Or.inl rfl, le_refl _, by simpa using hacc, fun h => absurd rfl h, ?_, ?_⟩
    · intro j hj; simp at hj
    · intro j hj; simp at hj
  | cons x xs ih =>
    intro k acc hacc
    rw [fuzzyFoldFrom_cons]
    by_cases hup : smSimilarity x target > acc.2
    · have hstep : fuzzyStep target acc (k, x) = ((k : Int), smSimilarity x target) := by
        simp [fuzzyStep, hup]
      rw [hstep]
      have hacc1 : ((k : Int), smSimilarity x target).1 < ((k + 1 : Nat) : Int) := by
        push_cast; simp
      obtain ⟨hA, hB, hC, hF, hD, hE⟩ := ih (k + 1) ((k : Int), smSimilarity x target) hacc1
      set res := fuzzyFoldFrom target (k + 1) xs ((k : Int), smSimilarity x target) with hres
      have hr_le : smSimilarity x target ≤ res.2 := hB
      refine ⟨?_, ?_, ?_, ?_, ?_, ?_⟩
      · rcases hA with heq | ⟨j, hj, hj1, hj2⟩
        · refine Or.inr ⟨0, by simp, ?_, ?_⟩
          · rw [heq]; simp
          · rw [heq]; simp
        · refine Or.inr ⟨j + 1, by simpa using Nat.succ_lt_succ hj, ?_, ?_⟩
          · rw [hj1]; push_cast; ring
          · rw [hj2]; simp [List.getD_cons_succ]
      · exact le_trans (le_of_lt hup) hr_le
      · have hlen : (((x :: xs).length : Nat) : Int) = (xs.length : Int) + 1 := by
          simp [List.length_cons]
        rw [hlen]
        push_cast at hC ⊢
        omega
      · intro _
        exact lt_of_lt_of_le hup hr_le
      · intro j hj
        cases j with
        | zero => simpa using hr_le
        | succ j0 =>
          have : j0 < xs.length := by simpa using hj
          simpa [List.getD_cons_succ] using hD j0 this
      · intro j hj hlt
        cases j with
        | zero =>
          have hne : res ≠ ((k : Int), smSimilarity x target) := by
            intro heq
            rw [heq] at hlt
            simp at hlt
          have := hF hne
          simpa using this
        | succ j0 =>
          have hj0 : j0 < xs.length := by simpa using hj
          have hlt0 : ((k + 1 : Nat) : Int) + (j0 : Int) < res.1 := by
            push_cast at hlt ⊢
            omega
          simpa [List.getD_cons_succ] using hE j0 hj0 hlt0
    · have hstep : fuzzyStep target acc (k, x) = acc := by
        simp [fuzzyStep]
        intro hc
        exact absurd hc (by simpa using hup)
      rw [hstep]
      have hacc1 : acc.1 < ((k + 1 : Nat) : Int) := by push_cast; omega
      obtain ⟨hA, hB, hC, hF, hD, hE⟩ := ih (k + 1) acc hacc1
      set res := fuzzyFoldFrom target (k + 1) xs acc with hres
      have hxle : smSimilarity x target ≤ acc.2 := le_of_not_lt hup
      refine ⟨?_, hB, ?_, hF, ?_, ?_⟩
      · rcases hA with heq | ⟨j, hj, hj1, hj2⟩
        · exact Or.inl heq
        · refine Or.inr ⟨j + 1, by simpa using Nat.succ_lt_succ hj, ?_, ?_⟩
          · rw [hj1]; push_cast; ring
          · rw [hj2]; simp [List.getD_cons_succ]
      · have hlen : (((x :: xs).length : Nat) : Int) = (xs.length : Int) + 1 := by
          simp [List.length_cons]
        rw [hlen]
        push_cast at hC ⊢
        omega
      · intro j hj
        cases j with
        | zero => simpa using le_trans hxle hB
        | succ j0 =>
          have : j0 < xs.length := by simpa using hj
          simpa [List.getD_cons_succ] using hD j0 this
      · intro j hj hlt
        cases j with
        | zero =>
          have hne : res ≠ acc := by
            intro heq
            rw [heq] at hlt
            simp at hlt
            omega
          exact lt_of_le_of_lt hxle (hF hne)
        | succ j0 =>
          have hj0 : j0 < xs.length := by simpa using hj
          have hlt0 : ((k + 1 : Nat) : Int) + (j0 : Int) < res.1 := by
            push_cast at hlt ⊢
            omega
          simpa [List.getD_cons_succ] using hE j0 hj0 hlt0

theorem fuzzyScan_eq (optsNorm : List (List Char)) (target : List Char) :
    fuzzyScan optsNorm target = fuzzyFoldFrom target 0 optsNorm ((-1 : Int), (-1 : ℚ)) := by
  simp [fuzzyScan, fuzzyFoldFrom, List.enum_eq_enumFrom]

theorem fuzzyScan_spec (optsNorm : List (List Char)) (target : List Char) (hne : optsNorm ≠ []) :
    ∃ i : Nat, i < optsNorm.length ∧ (fuzzyScan optsNorm target).1 = (i : Int) ∧
      (fuzzyScan optsNorm target).2 = smSimilarity (optsNorm.getD i []) target ∧
      (∀ j, j < optsNorm.length →
        smSimilarity (optsNorm.getD j []) target ≤ (fuzzyScan optsNorm target).2) ∧
      (∀ j, j < i → smSimilarity (optsNorm.getD j []) target < (fuzzyScan optsNorm target).2) := by
  obtain ⟨hA, _hB, _hC, _hF, hD, hE⟩ :=
    fuzzyFold_inv target optsNorm 0 ((-1 : Int), (-1 : ℚ)) (by norm_num)
  rw [fuzzyScan_eq]
  rcases hA with heq | ⟨j, hj, hj1, hj2⟩
  · exfalso
    obtain ⟨o, os, rfl⟩ : ∃ o os, optsNorm = o :: os := by
      cases optsNorm with
      | nil => exact absurd rfl hne
      | cons o os => exact ⟨o, os, rfl⟩
    have h0 := hD 0 (by simp)
    rw [heq] at h0
    have hpos := smSimilarity_nonneg o target
    simp at h0
    linarith
  · refine ⟨j, hj, by simpa using hj1, hj2, hD, ?_⟩
    intro j0 hj0
    apply hE j0 (lt_trans hj0 hj)
    rw [hj1]
    push_cast
    omega

theorem bom_eq_exact (cand : String) (opts : List String) (i : Nat)
    (hex : exactIdx (opts.map (fun x => normStrictChars x.data))
      (normStrictChars cand.data) = some i) :
    best_option_match cand opts = (i : Int) := by
  simp only [best_option_match, hex]

theorem bom_eq_contain (cand : String) (opts : List String) (i : Nat)
    (hex : exactIdx (opts.map (fun x => normStrictChars x.data))
      (normStrictChars cand.data) = none)
    (hcon : containIdx (opts.map (fun x => normStrictChars x.data))
      (normStrictChars cand.data) = some i) :
    best_option_match cand opts = (i : Int) := by
  simp only [best_option_match, hex, hcon]

theorem bom_eq_fuzzy (cand : String) (opts : List String)
    (hex : exactIdx (opts.map (fun x => normStrictChars x.data))
      (normStrictChars cand.data) = none)
    (hcon : containIdx (opts.map (fun x => normStrictChars x.data))
      (normStrictChars cand.data) = none) :
    best_option_match cand opts =
      (fuzzyScan (opts.map (fun x => normStrictChars x.data)) (normStrictChars cand.data)).1 := by
  simp only [best_option_match, hex, hcon]
  split <;> rfl

theorem bom_empty (cand : String) : best_option_match cand [] = -1 := by
  have h1 : exactIdx (([] : List String).map (fun x => normStrictChars x.data))
      (normStrictChars cand.data) = none := rfl
  have h2 : containIdx (([] : List String).map (fun x => normStrictChars x.data))
      (normStrictChars cand.data) = none := rfl
  rw [bom_eq_fuzzy cand [] h1 h2]
  rfl

theorem bom_main (cand : String) (opts : List String) :
    (opts = [] ∧ best_option_match cand opts = -1) ∨
      (0 ≤ best_option_match cand opts ∧ best_option_match cand opts < (opts.length : Int)) := by
  by_cases hnil : opts = []
  · subst hnil
    exact Or.inl ⟨rfl, bom_empty cand⟩
  · right
    have hlen : (opts.map (fun x => normStrictChars x.data)).length = opts.length := by simp
    cases hex : exactIdx (opts.map (fun x => normStrictChars x.data))
        (normStrictChars cand.data) with
    | some i =>
      obtain ⟨hi, _, _⟩ := findIdx?_spec _ ([] : List Char) _ i hex
      rw [bom_eq_exact cand opts i hex]
      constructor
      · exact Int.ofNat_nonneg i
      · rw [hlen] at hi
        exact_mod_cast hi
    | none =>
      cases hcon : containIdx (opts.map (fun x => normStrictChars x.data))
          (normStrictChars cand.data) with
      | some i =>
        obtain ⟨hi, _, _⟩ := findIdx?_spec _ ([] : List Char) _ i hcon
        rw [bom_eq_contain cand opts i hex hcon]
        constructor
        · exact Int.ofNat_nonneg i
        · rw [hlen] at hi
          exact_mod_cast hi
      | none =>
        obtain ⟨N, hN⟩ : ∃ N, opts.map (fun x => normStrictChars x.data) = N := ⟨_, rfl⟩
        have hne : N ≠ [] := by
          rw [← hN]
          simpa using hnil
        have hlenN : N.length = opts.length := by
          rw [← hN]
          simp
        obtain ⟨i, hi, h1, _, _, _⟩ := fuzzyScan_spec N (normStrictChars cand.data) hne
        rw [bom_eq_fuzzy cand opts hex hcon, hN, h1]
        constructor
        · exact Int.ofNat_nonneg i
        · rw [hlenN] at hi
          exact_mod_cast hi

/-! # Claim C7 -/

/-- Claim C7: in the output of the extractor, a nonempty resolved letter
always denotes a valid position of the option list of the question, and the
resolved text is the option text at that same position. -/
theorem claim_C7_invariant (ct : String) (opts : List String)
    (h : (resolveLetraTexto ct opts).1 ≠ "") :
    ∃ pos : Nat, pos < opts.length ∧
      (resolveLetraTexto ct opts).1 = to_letter (pos : Int) ∧
      (resolveLetraTexto ct opts).2 = opts.getD pos "" := by
  by_cases hct : ct = ""
  · rw [hct, resolveLetraTexto_empty] at h
    exact absurd rfl h
  · simp only [resolveLetraTexto, if_neg hct] at h ⊢
    by_cases hg : 0 ≤ best_option_match ct opts ∧ best_option_match ct opts < 26
    · rcases bom_main ct opts with ⟨_, hm1⟩ | ⟨h0, hlt⟩
      · rw [hm1] at hg
        exact absurd hg.1 (by norm_num)
      · have htn : (((best_option_match ct opts).toNat : Nat) : Int) = best_option_match ct opts :=
          Int.toNat_of_nonneg h0
        refine ⟨(best_option_match ct opts).toNat, by omega, ?_, ?_⟩
        · rw [if_pos hg]
          unfold to_letter
          rw [htn, if_pos hg]
        · rw [if_pos ⟨h0, hlt⟩]
    · rw [if_neg hg] at h
      exact absurd rfl h

/-- Witness for C7: a resolved question whose letter is "B". -/
theorem claim_C7_witness :
    (resolveLetraTexto "no" ["si", "no"]).1 ≠ "" ∧
    ∃ pos : Nat, pos < (["si", "no"] : List String).length ∧
      (resolveLetraTexto "no" ["si", "no"]).1 = to_letter (pos : Int) ∧
      (resolveLetraTexto "no" ["si", "no"]).2 = (["si", "no"] : List String).getD pos "" :=
  ⟨by decide, claim_C7_invariant "no" ["si", "no"] (by decide)⟩

/-! # Claim C8 -/

/-- Claim C8: for a nonempty candidate and an empty option list,
`best_option_match` returns -1 (total, no exception), the caller maps it
to the empty letter and empty text, and in general the only out-of-range
index the matcher can produce is -1: every other result indexes the
option list. -/
theorem claim_C8_empty_options (cand : String) (hc : cand ≠ "") :
    best_option_match cand [] = -1 ∧
    resolveLetraTexto cand [] = ("", "") ∧
    ∀ opts : List String,
      best_option_match cand opts = -1 ∨
        (0 ≤ best_option_match cand opts ∧ best_option_match cand opts < (opts.length : Int)) := by
  refine ⟨bom_empty cand, ?_, ?_⟩
  · simp only [resolveLetraTexto, if_neg hc, bom_empty cand]
    norm_num
  · intro opts
    rcases bom_main cand opts with ⟨_, h⟩ | h
    · exact Or.inl h
    · exact Or.inr h

/-- Witness for C8 at candidate "x". -/
theorem claim_C8_witness :
    ("x" : String) ≠ "" ∧ best_option_match "x" [] = -1 ∧
      resolveLetraTexto "x" [] = ("", "") :=
  ⟨by decide, (claim_C8_empty_options "x" (by decide)).1, (claim_C8_empty_options "x" (by decide)).2.1⟩

/-! # Claim C6 -/

/-- Claim C6: the fuzzy matcher is a first-hit-wins cascade.  For
nonempty option lists it always returns an index of the list (it never
raises and never needs the 0.80 threshold to return).  The exact stage
returns the lowest index whose normalized text equals the normalized
candidate; the containment stage (reached only when the exact stage
fails) returns the lowest index passing the containment test; the fuzzy
stage (reached only when both fail) returns the lowest index attaining
the maximum similarity ratio, threshold or not.  On options
`["Falta", "Falta grave", "Expulsión"]` with candidate
`"falta grave (art. 12)"` it returns index 1, found by the exact stage
after citation stripping. -/
theorem claim_C6_matcher_cascade :
    (∀ (cand : String) (opts : List String), opts ≠ [] →
        0 ≤ best_option_match cand opts ∧ best_option_match cand opts < (opts.length : Int)) ∧
    (∀ (cand : String) (opts : List String) (i : Nat),
        exactIdx (opts.map (fun x => normStrictChars x.data))
            (normStrictChars cand.data) = some i →
          best_option_match cand opts = (i : Int) ∧ i < opts.length ∧
          (opts.map (fun x => normStrictChars x.data)).getD i [] = normStrictChars cand.data ∧
          ∀ j, j < i →
            (opts.map (fun x => normStrictChars x.data)).getD j [] ≠
              normStrictChars cand.data) ∧
    (∀ (cand : String) (opts : List String) (i : Nat),
        exactIdx (opts.map (fun x => normStrictChars x.data))
            (normStrictChars cand.data) = none →
        containIdx (opts.map (fun x => normStrictChars x.data))
            (normStrictChars cand.data) = some i →
          best_option_match cand opts = (i : Int) ∧ i < opts.length ∧
          containChk (normStrictChars cand.data)
              ((opts.map (fun x => normStrictChars x.data)).getD i []) = true ∧
          ∀ j, j < i →
            containChk (normStrictChars cand.data)
              ((opts.map (fun x => normStrictChars x.data)).getD j []) = false) ∧
    (∀ (cand : String) (opts : List String),
        exactIdx (opts.map (fun x => normStrictChars x.data))
            (normStrictChars cand.data) = none →
        containIdx (opts.map (fun x => normStrictChars x.data))
            (normStrictChars cand.data) = none →
        opts ≠ [] →
          ∃ i : Nat, best_option_match cand opts = (i : Int) ∧ i < opts.length ∧
            (∀ j, j < opts.length →
              smSimilarity ((opts.map (fun x => normStrictChars x.data)).getD j [])
                  (normStrictChars cand.data) ≤
                smSimilarity ((opts.map (fun x => normStrictChars x.data)).getD i [])
                  (normStrictChars cand.data)) ∧
            ∀ j, j < i →
              smSimilarity ((opts.map (fun x => normStrictChars x.data)).getD j [])
                  (normStrictChars cand.data) <
                smSimilarity ((opts.map (fun x => normStrictChars x.data)).getD i [])
                  (normStrictChars cand.data)) ∧
    (best_option_match "falta grave (art. 12)" ["Falta", "Falta grave", "Expulsión"] = 1 ∧
      exactIdx (["Falta", "Falta grave", "Expulsión"].map (fun x => normStrictChars x.data))
        (normStrictChars "falta grave (art. 12)".data) = some 1) := by
  refine ⟨?_, ?_, ?_, ?_, by decide⟩
  · intro cand opts hnil
    rcases bom_main cand opts with ⟨hc, _⟩ | h
    · exact absurd hc hnil
    · exact h
  · intro cand opts i hex
    have hex' : (opts.map (fun x => normStrictChars x.data)).findIdx?
        (exactChk (normStrictChars cand.data)) = some i := hex
    obtain ⟨hi, hp, hbelow⟩ :=
      findIdx?_spec (exactChk (normStrictChars cand.data)) ([] : List Char) _ i hex'
    refine ⟨bom_eq_exact cand opts i hex, by simpa using hi, ?_, ?_⟩
    · simpa [exactChk] using hp
    · intro j hj
      have := hbelow j hj
      simpa [exactChk] using this
  · intro cand opts i hex hcon
    have hcon' : (opts.map (fun x => normStrictChars x.data)).findIdx?
        (containChk (normStrictChars cand.data)) = some i := hcon
    obtain ⟨hi, hp, hbelow⟩ :=
      findIdx?_spec (containChk (normStrictChars cand.data)) ([] : List Char) _ i hcon'
    exact ⟨bom_eq_contain cand opts i hex hcon, by simpa using hi, hp, hbelow⟩
  · intro cand opts hex hcon hnil
    obtain ⟨N, hN⟩ : ∃ N, opts.map (fun x => normStrictChars x.data) = N := ⟨_, rfl⟩
    have hne : N ≠ [] := by
      rw [← hN]
      simpa using hnil
    have hlenN : N.length = opts.length := by
      rw [← hN]
      simp
    obtain ⟨i, hi, h1, h2, h3, h4⟩ := fuzzyScan_spec N (normStrictChars cand.data) hne
    rw [hN]
    refine ⟨i, ?_, by omega, ?_, ?_⟩
    · rw [bom_eq_fuzzy cand opts hex hcon, hN, h1]
    · intro j hj
      have := h3 j (by omega)
      rw [h2] at this
      exact this
    · intro j hj
      have := h4 j hj
      rw [h2] at this
      exact this

/-- Witness for C6 on a nonempty option list. -/
theorem claim_C6_witness :
    (["a"] : List String) ≠ [] ∧
    0 ≤ best_option_match "x" ["a"] ∧
      best_option_match "x" ["a"] < ((["a"] : List String).length : Int) :=
  ⟨by decide, (claim_C6_matcher_cascade.1 "x" ["a"] (by decide)).1,
    (claim_C6_matcher_cascade.1 "x" ["a"] (by decide)).2⟩

/-! # Claim C9 -/

/-- Claim C9: in solver mode, a question with no knowledge-base match
(neither by identifier nor by normalized prompt text) is answered with
option index 0, whose submitted value is the first option
value; and for every question with at least one option, whatever
position is chosen, the clamped payload value is one of the
own option values of that question, and the corresponding `opcionN` form field is part of
the built payload. -/
theorem claim_C9_solver_fallback :
    (∀ (kb : List QEntry) (p : PreguntaC),
        (if p.id_pregunta ≠ "" then kb_by_id_get kb p.id_pregunta else none) = none →
        kb_by_text_get kb (norm_text p.pregunta) = none →
          mainChosenPos kb p = 0 ∧
          payloadOpcionValue p (mainChosenPos kb p) = p.opciones_val.getD 0 "") ∧
    (∀ (p : PreguntaC) (pos : Nat), p.opciones_val ≠ [] →
        payloadOpcionValue p pos ∈ p.opciones_val) ∧
    (∀ (preguntas : List PreguntaC) (chosen : List (Nat × Nat)) (tipo : String) (n : Nat)
        (p : PreguntaC), p ∈ preguntas →
        ("opcion" ++ toString p.idx, payloadOpcionValue p (dictGetD chosen p.idx 0)) ∈
          build_payload_from_choices preguntas chosen tipo n) := by
  refine ⟨?_, ?_, ?_⟩
  · intro kb p h1 h2
    have hch : choose_from_kb p kb = none := by
      simp only [choose_from_kb, h1, h2]
    have h0 : mainChosenPos kb p = 0 := by
      simp [mainChosenPos, hch]
    refine ⟨h0, ?_⟩
    rw [h0]
    have hcl : clampPos 0 p.opciones_val.length = 0 := by
      unfold clampPos
      omega
    rw [payloadOpcionValue, hcl]
  · intro p pos h
    have hpos : 0 < p.opciones_val.length := List.length_pos.mpr h
    have hcl : clampPos pos p.opciones_val.length < p.opciones_val.length := by
      unfold clampPos
      omega
    rw [payloadOpcionValue, List.getD_eq_getElem?_getD, List.getElem?_eq_getElem hcl]
    exact List.getElem_mem hcl
  · intro preguntas chosen tipo n p hp
    unfold build_payload_from_choices
    rw [List.mem_append]
    right
    rw [List.mem_flatMap]
    exact ⟨p, hp, by simp⟩

/-- Witness for C9: an empty knowledge base and a two-option question. -/
theorem claim_C9_witness :
    (if (⟨4, "q4", "texto?", ["v1", "v2"], ["t1", "t2"]⟩ : PreguntaC).id_pregunta ≠ "" then
        kb_by_id_get [] (⟨4, "q4", "texto?", ["v1", "v2"], ["t1", "t2"]⟩ : PreguntaC).id_pregunta
      else none) = none ∧
    kb_by_text_get []
      (norm_text (⟨4, "q4", "texto?", ["v1", "v2"], ["t1", "t2"]⟩ : PreguntaC).pregunta) = none ∧
    mainChosenPos [] (⟨4, "q4", "texto?", ["v1", "v2"], ["t1", "t2"]⟩ : PreguntaC) = 0 ∧
    payloadOpcionValue (⟨4, "q4", "texto?", ["v1", "v2"], ["t1", "t2"]⟩ : PreguntaC)
      (mainChosenPos [] (⟨4, "q4", "texto?", ["v1", "v2"], ["t1", "t2"]⟩ : PreguntaC)) =
      (["v1", "v2"] : List String).getD 0 "" :=
  ⟨by decide, by decide,
    (claim_C9_solver_fallback.1 [] ⟨4, "q4", "texto?", ["v1", "v2"], ["t1", "t2"]⟩
      (by decide) (by decide)).1,
    (claim_C9_solver_fallback.1 [] ⟨4, "q4", "texto?", ["v1", "v2"], ["t1", "t2"]⟩
      (by decide) (by decide)).2⟩

/-! # Claim C4 -/

theorem charNeOfNatLt {c d : Char} (h : c.toNat < d.toNat) : c ≠ d := by
  intro he
  subst he
  exact lt_irrefl _ h

theorem beq_false_of_lt {c d : Char} (h : c.toNat < d.toNat) : (c == d) = false :=
  beq_eq_false_iff_ne.mpr (charNeOfNatLt h)

theorem tameChar_bounds {c : Char} (h : tameChar c = true) :
    (97 ≤ c.toNat ∧ c.toNat ≤ 122) ∨ (48 ≤ c.toNat ∧ c.toNat ≤ 57) ∨ c.toNat = 32 := by
  simp [tameChar] at h
  rcases h with (h | h) | h
  · exact Or.inl h
  · exact Or.inr (Or.inl h)
  · subst h
    exact Or.inr (Or.inr rfl)

theorem tame_le122 {c : Char} (h : tameChar c = true) : c.toNat ≤ 122 := by
  rcases tameChar_bounds h with hb | hb | hb <;> omega

theorem pyUnescapeFuel_id : ∀ (f : Nat) (cs : List Char), '&' ∉ cs → pyUnescapeFuel f cs = cs := by
  intro f
  induction f with
  | zero => intro cs _; rfl
  | succ f ih =>
    intro cs h
    cases cs with
    | nil => rfl
    | cons c cs' =>
      have hc : ¬(c = '&') := by
        intro he
        exact h (he ▸ List.mem_cons_self c cs')
      simp only [pyUnescapeFuel]
      rw [if_neg hc, ih cs' (fun hm => h (List.mem_cons_of_mem _ hm))]

theorem replFuel_id (p0 : Char) (pat rep : List Char) :
    ∀ (f : Nat) (cs : List Char), p0 ∉ cs → replFuel (p0 :: pat) rep f cs = cs := by
  intro f
  induction f with
  | zero => intro cs _; rfl
  | succ f ih =>
    intro cs h
    cases cs with
    | nil => rfl
    | cons c cs' =>
      have hc : ¬(p0 = c) := by
        intro he
        subst he
        exact h (List.mem_cons_self _ _)
      have hpre : ¬((p0 :: pat).isPrefixOf (c :: cs') = true) := by
        show ¬((p0 == c && pat.isPrefixOf cs') = true)
        rw [beq_eq_false_iff_ne.mpr hc]
        simp
      simp only [replFuel]
      rw [if_neg (fun hcond => hpre hcond.2), ih cs' (fun hm => h (List.mem_cons_of_mem _ hm))]

theorem collapseWs_id : ∀ (cs : List Char), noAdjWs cs = true →
    (∀ c ∈ cs, pyIsWs c = true → c = ' ') → collapseWs cs = cs := by
  intro cs
  induction cs with
  | nil => intro _ _; rfl
  | cons c cs' ih =>
    intro hadj hws
    cases cs' with
    | nil =>
      by_cases hc : pyIsWs c = true
      · have hceq : c = ' ' := hws c (List.mem_cons_self _ _) hc
        simp [collapseWs, hc, hceq]
      · simp [collapseWs, hc]
    | cons d cs'' =>
      have hadj' : ¬(pyIsWs c = true ∧ pyIsWs d = true) ∧ noAdjWs (d :: cs'') = true := by
        simp only [noAdjWs, Bool.and_eq_true, Bool.not_eq_true'] at hadj
        constructor
        · intro ⟨h1, h2⟩
          rw [h1, h2] at hadj
          simpa using hadj.1
        · exact hadj.2
      have ihres := ih hadj'.2 (fun x hx hwx => hws x (List.mem_cons_of_mem _ hx) hwx)
      by_cases hc : pyIsWs c = true
      · have hceq : c = ' ' := hws c (List.mem_cons_self _ _) hc
        have hd : ¬(pyIsWs d = true) := fun hdw => hadj'.1 ⟨hc, hdw⟩
        simp [collapseWs, hc, hd, ihres, hceq]
      · simp [collapseWs, hc, ihres]

theorem pyStripWs_id (cs : List Char)
    (h1 : ∀ c, cs.head? = some c → pyIsWs c = false)
    (h2 : ∀ c, cs.getLast? = some c → pyIsWs c = false) :
    pyStripWs cs = cs := by
  unfold pyStripWs
  have hd : cs.dropWhile pyIsWs = cs := by
    cases cs with
    | nil => rfl
    | cons c cs' =>
      rw [List.dropWhile_cons, if_neg]
      rw [h1 c rfl]
      simp
  rw [hd]
  have hrev : cs.reverse.dropWhile pyIsWs = cs.reverse := by
    cases hrv : cs.reverse with
    | nil => rfl
    | cons c cs' =>
      rw [List.dropWhile_cons, if_neg]
      have hlsome : cs.getLast? = some c := by
        rw [← List.head?_reverse, hrv]
        rfl
      rw [h2 c hlsome]
      simp
  rw [hrev, List.reverse_reverse]

theorem pyRstrip_id (setChars cs : List Char)
    (h : ∀ c, cs.getLast? = some c → setChars.contains c = false) :
    pyRstrip setChars cs = cs := by
  unfold pyRstrip
  have hrev : cs.reverse.dropWhile (fun c => setChars.contains c) = cs.reverse := by
    cases hrv : cs.reverse with
    | nil => rfl
    | cons c cs' =>
      rw [List.dropWhile_cons, if_neg]
      have hlsome : cs.getLast? = some c := by
        rw [← List.head?_reverse, hrv]
        rfl
      rw [h c hlsome]
      simp
  rw [hrev, List.reverse_reverse]

theorem citationMatch_none (cs : List Char) (h : ')' ∉ cs) : citationMatch cs = none := by
  unfold citationMatch
  cases hrv : cs.reverse.dropWhile pyIsWs with
  | nil => rfl
  | cons c t =>
    have hcmem : c ∈ cs := by
      have hm : c ∈ cs.reverse.dropWhile pyIsWs := by
        rw [hrv]
        exact List.mem_cons_self _ _
      exact List.mem_reverse.mp ((List.dropWhile_sublist pyIsWs).subset hm)
    have hcne : c ≠ ')' := by
      intro he
      exact h (he ▸ hcmem)
    simp [hcne]

theorem stripCitation_id (cs : List Char) (h : ')' ∉ cs) : stripCitation cs = cs := by
  unfold stripCitation
  rw [citationMatch_none cs h]

theorem list_map_id {α : Type} (f : α → α) :
    ∀ (cs : List α), (∀ c ∈ cs, f c = c) → cs.map f = cs := by
  intro cs
  induction cs with
  | nil => intro _; rfl
  | cons c cs' ih =>
    intro h
    rw [List.map_cons, h c (List.mem_cons_self _ _),
      ih (fun x hx => h x (List.mem_cons_of_mem _ hx))]

theorem list_flatMap_id (f : Char → List Char) :
    ∀ (cs : List Char), (∀ c ∈ cs, f c = [c]) → cs.flatMap f = cs := by
  intro cs
  induction cs with
  | nil => intro _; rfl
  | cons c cs' ih =>
    intro h
    rw [List.flatMap_cons, h c (List.mem_cons_self _ _),
      ih (fun x hx => h x (List.mem_cons_of_mem _ hx))]
    rfl

theorem nfdChar_ascii {c : Char} (h : c.toNat ≤ 122) : nfdChar c = [c] := by
  unfold nfdChar
  split <;> first
    | rfl
    | (exact absurd h (by decide))

theorem pyLower_tame {c : Char} (h : tameChar c = true) : pyLower c = c := by
  have h122 : c.toNat ≤ 122 := tame_le122 h
  have hnot : ¬(65 ≤ c.toNat ∧ c.toNat ≤ 90) := by
    rcases tameChar_bounds h with hb | hb | hb <;> omega
  unfold pyLower
  rw [if_neg hnot]
  split <;> first
    | rfl
    | (exact absurd h122 (by decide))

theorem isMn_ascii {c : Char} (h : c.toNat ≤ 122) : isMn c = false := by
  have hm : ∀ d : Char, 122 < d.toNat → (c == d) = false :=
    fun d hd => beq_false_of_lt (lt_of_le_of_lt h hd)
  unfold isMn
  rw [hm _ (by decide), hm _ (by decide), hm _ (by decide), hm _ (by decide), hm _ (by decide),
    hm _ (by decide), hm _ (by decide), hm _ (by decide), hm _ (by decide)]
  rfl

theorem punct_not_tame {c : Char} (h : tameChar c = true) : punctChars.contains c = false := by
  by_contra hne
  have hmem : c ∈ punctChars := by
    have htrue : punctChars.contains c = true := by
      cases hv : punctChars.contains c with
      | true => rfl
      | false => exact absurd hv hne
    simpa [punctChars, List.contains, List.elem_eq_mem] using htrue
  have hmem' : c = '.' ∨ c = ';' ∨ c = ':' ∨ c = '¡' ∨ c = '!' ∨ c = '¿' ∨ c = '?' ∨
      c = '[' ∨ c = ']' ∨ c = '(' ∨ c = ')' := by
    simpa [punctChars, or_assoc] using hmem
  rcases hmem' with rfl | rfl | rfl | rfl | rfl | rfl | rfl | rfl | rfl | rfl | rfl <;>
    exact absurd h (by decide)

theorem ws_tame_space {c : Char} (h : tameChar c = true) (hw : pyIsWs c = true) : c = ' ' := by
  have hw' : c = ' ' ∨ c = '\t' ∨ c = '\n' ∨ c = '\r' ∨ c = '\x0b' ∨ c = '\x0c' ∨
      c = '\xa0' := by
    simpa [pyIsWs, or_assoc] using hw
  rcases hw' with rfl | rfl | rfl | rfl | rfl | rfl | rfl
  · rfl
  all_goals exact absurd h (by decide)

theorem normStrict_id_of_tame (s : String) (h : tameStr s = true) :
    normalize_txt_strict s = s := by
  obtain ⟨d⟩ := s
  simp only [tameStr, Bool.and_eq_true] at h
  obtain ⟨⟨⟨hall, hadj⟩, hhead⟩, hlast⟩ := h
  have hmem : ∀ c ∈ d, tameChar c = true := fun c hc => List.all_eq_true.mp hall c hc
  have hnm : ∀ x : Char, tameChar x = false → x ∉ d := by
    intro x hx hmemx
    rw [hmem x hmemx] at hx
    exact absurd hx (by simp)
  have h1 : pyUnescape d = d := by
    unfold pyUnescape
    exact pyUnescapeFuel_id _ d (hnm '&' (by decide))
  have h2 : quoteNorm d = d := by
    unfold quoteNorm pyReplace
    rw [replFuel_id '“' _ _ _ d (hnm '“' (by decide)),
      replFuel_id '”' _ _ _ d (hnm '”' (by decide)),
      replFuel_id '’' _ _ _ d (hnm '’' (by decide)),
      replFuel_id '‘' _ _ _ d (hnm '‘' (by decide)),
      replFuel_id '"' _ _ _ d (hnm '"' (by decide)),
      replFuel_id '"' _ _ _ d (hnm '"' (by decide)),
      replFuel_id aposC _ _ _ d (hnm aposC (by decide))]
  have h3 : stripCitation d = d := stripCitation_id d (hnm ')' (by decide))
  have h4 : d.flatMap nfdChar = d :=
    list_flatMap_id _ d (fun c hc => nfdChar_ascii (tame_le122 (hmem c hc)))
  have h5 : d.filter (fun c => !(isMn c)) = d :=
    List.filter_eq_self.mpr (fun c hc => by rw [isMn_ascii (tame_le122 (hmem c hc))]; rfl)
  have h6 : d.map pyLower = d := list_map_id _ d (fun c hc => pyLower_tame (hmem c hc))
  have hheadf : ∀ c, d.head? = some c → pyIsWs c = false := by
    intro c hc
    rw [hc] at hhead
    simpa using hhead
  have hlastf : ∀ c, d.getLast? = some c → pyIsWs c = false := by
    intro c hc
    rw [hc] at hlast
    simpa using hlast
  have h7 : pyStripWs d = d := pyStripWs_id d hheadf hlastf
  have h8 : pyRstrip punctChars d = d := by
    refine pyRstrip_id _ d (fun c hc => ?_)
    exact punct_not_tame (hmem c (List.mem_of_mem_getLast? hc))
  have h9 : collapseWs d = d :=
    collapseWs_id d hadj (fun c hc hw => ws_tame_space (hmem c hc) hw)
  show normalize_txt_strict (String.mk d) = String.mk d
  simp only [normalize_txt_strict, normStrictChars]
  rw [h1, h2, h3, h4, h5, h6, h7, h8, h9, h7]

/-- Claim C4 counterexample: the normalizer is not idempotent.  On
`"a. ."` the trailing-punctuation rstrip (which runs before whitespace
collapsing) leaves `"a."`, and a second pass strips the now-trailing
dot: `normalize("a. .") = "a."` but `normalize("a.") = "a"`. -/
theorem claim_C4_counterexample :
    normalize_txt_strict "a. ." = "a." ∧ normalize_txt_strict "a." = "a" ∧
    normalize_txt_strict (normalize_txt_strict "a. .") ≠ normalize_txt_strict "a. ." := by
  decide

/-- Claim C4 (amended): `normalize_txt_strict` is not idempotent in
general; it is idempotent on every input whose normalized form consists
of ASCII lowercase letters and digits separated by single spaces (no
quote runs, entities, citations or trailing punctuation left to absorb
in a second pass). -/
theorem claim_C4_conditional_idempotence (x : String)
    (h : tameStr (normalize_txt_strict x) = true) :
    normalize_txt_strict (normalize_txt_strict x) = normalize_txt_strict x :=
  normStrict_id_of_tame _ h

/-- Witness for the amended C4. -/
theorem claim_C4_witness :
    tameStr (normalize_txt_strict "Hola Mundo 123") = true ∧
    normalize_txt_strict (normalize_txt_strict "Hola Mundo 123") =
      normalize_txt_strict "Hola Mundo 123" :=
  ⟨by decide, claim_C4_conditional_idempotence "Hola Mundo 123" (by decide)⟩

/-! # Sanity evaluations of the embedding -/

example : normalize_txt_strict "a. ." = "a." := by decide
example : normalize_txt_strict "a." = "a" := by decide
example : normalize_txt_strict "falta grave (art. 12)" = "falta grave" := by decide
example : normalize_txt_strict "Expulsión" = "expulsion" := by decide
example : normalize_txt_strict "  Hola   Mundo  " = "hola mundo" := by decide
example : normalize_txt_strict "&amp;amp;" = "&amp" := by decide
example : best_option_match "falta grave (art. 12)" ["Falta", "Falta grave", "Expulsión"] = 1 := by
  decide
example : letter 0 = "A" ∧ letter 25 = "Z" ∧ letter 26 = "AA" ∧ letter (-1) = "" := by decide
example : to_letter 0 = "A" ∧ to_letter 25 = "Z" ∧ to_letter 26 = "" := by decide
example : norm_text "  Falta   GRAVE " = "falta grave" := by decide
example :
    extractorResolve [⟨0, "17", "q?", ["x", "y", "z"]⟩] [none] = [(0, "", "")] := by decide
example :
    padCorrects 2 (parse_correct_answers_from_results [none, some "falta grave"]) =
      ["falta grave", ""] := by decide
example : parse_score_from_results "Tienes 3 aciertos sobre 25" = some 3 := by decide
example : parse_score_from_results "sin puntuacion aqui" = none := by decide
example : stripTrailingParen "Falta grave (art. 12) " = "Falta grave" := by decide
example :
    (merge_into_map [] [({ id_pregunta := some "7", correcta := some "A" } : QEntry)]).1.length
      = 1 := by decide
